import Mathlib

/-!
A shallow embedding of `src/trackball.js` (class `Trackball`): the ball
projector, the rotation-method strategies, and the drag state machine, over
real arithmetic. The external Quaternion.js dependency is out of scope of the
repository; its operations are modelled from the spec interface (spec §6).
All numeric computation is over `ℝ`, the idealisation the spec targets
("norm within 1e-9 of 1"), so floating-point rounding is not modelled.
-/

noncomputable section

set_option autoImplicit false

/-- A quaternion `w + x i + y j + z k`, as consumed through the narrow
interface of the external Quaternion primitive. -/
@[ext] structure Quat where
  w : ℝ
  x : ℝ
  y : ℝ
  z : ℝ

/-- A 3D vector, as the JS arrays `[x, y, z]` used for axes and projections. -/
@[ext] structure Vec3 where
  x : ℝ
  y : ℝ
  z : ℝ

namespace Vec3

/-- Modelled from the spec: the dot product used by the external Quaternion
primitive's two-vector constructor. -/
def dot (u v : Vec3) : ℝ := u.x * v.x + u.y * v.y + u.z * v.z

/-- Modelled from the spec: the cross product used by the external Quaternion
primitive's two-vector constructor. -/
def cross (u v : Vec3) : Vec3 :=
  ⟨u.y * v.z - u.z * v.y, u.z * v.x - u.x * v.z, u.x * v.y - u.y * v.x⟩

end Vec3

namespace Quat

/-- Modelled from the spec: the identity constant (`Quaternion.ONE`). -/
def one : Quat := ⟨1, 0, 0, 0⟩

/-- Modelled from the spec: `multiply(q)` of the external Quaternion
primitive, the Hamilton product. -/
def mul (p q : Quat) : Quat :=
  ⟨p.w * q.w - p.x * q.x - p.y * q.y - p.z * q.z,
   p.w * q.x + p.x * q.w + p.y * q.z - p.z * q.y,
   p.w * q.y - p.x * q.z + p.y * q.w + p.z * q.x,
   p.w * q.z + p.x * q.y - p.y * q.x + p.z * q.w⟩

/-- Squared norm of a quaternion. -/
def normSq (p : Quat) : ℝ := p.w * p.w + p.x * p.x + p.y * p.y + p.z * p.z

/-- Quaternion conjugate. -/
def conj (p : Quat) : Quat := ⟨p.w, -p.x, -p.y, -p.z⟩

/-- Componentwise division by the norm. -/
def normalize (p : Quat) : Quat :=
  ⟨p.w / Real.sqrt p.normSq, p.x / Real.sqrt p.normSq,
   p.y / Real.sqrt p.normSq, p.z / Real.sqrt p.normSq⟩

/-- Modelled from the spec: the unnormalized shortest-arc quaternion between
two vectors, with scalar part `u·v + |u||v|` (written via
`sqrt((u·v)² + |u×v|²) = |u||v|`) and vector part `u×v`. -/
def fromVectorsRaw (u v : Vec3) : Quat :=
  ⟨Vec3.dot u v +
     Real.sqrt (Vec3.dot u v * Vec3.dot u v + Vec3.dot (Vec3.cross u v) (Vec3.cross u v)),
   (Vec3.cross u v).x, (Vec3.cross u v).y, (Vec3.cross u v).z⟩

/-- Modelled from the spec: `fromTwoVectors(a,b)`, "the minimal rotation
taking one 3D unit vector to the other", returned as a unit quaternion.
Spec §7 requires degenerate sphere-family geometry to short-circuit to
"no rotation" rather than producing NaN, so the degenerate (anti-parallel)
case, where the shortest arc is ill-defined, returns the identity. -/
def fromVectors (u v : Vec3) : Quat :=
  if (fromVectorsRaw u v).normSq = 0 then one else normalize (fromVectorsRaw u v)

/-- Modelled from the spec: `fromEuler(pitch, yaw, roll, XYZ)`: the
composition of the axis rotations about X (pitch/elevation, applied first),
Y (yaw/azimuth, second), and Z (roll). -/
def fromEuler (pitch yaw roll : ℝ) : Quat :=
  mul ⟨Real.cos (pitch / 2), Real.sin (pitch / 2), 0, 0⟩
    (mul ⟨Real.cos (yaw / 2), 0, Real.sin (yaw / 2), 0⟩
      ⟨Real.cos (roll / 2), 0, 0, Real.sin (roll / 2)⟩)

theorem normSq_mul (p q : Quat) : (p.mul q).normSq = p.normSq * q.normSq := by
  simp only [mul, normSq]
  ring

theorem normSq_nonneg (p : Quat) : 0 ≤ p.normSq := by
  simp only [normSq]
  nlinarith [mul_self_nonneg p.w, mul_self_nonneg p.x, mul_self_nonneg p.y, mul_self_nonneg p.z]

theorem normSq_one : (Quat.one).normSq = 1 := by
  simp [one, normSq]

theorem normSq_conj (p : Quat) : p.conj.normSq = p.normSq := by
  simp only [conj, normSq]
  ring

theorem one_mul (p : Quat) : Quat.one.mul p = p := by
  ext <;> simp [one, mul]

theorem mul_assoc (p q r : Quat) : (p.mul q).mul r = p.mul (q.mul r) := by
  ext <;> simp only [mul] <;> ring

theorem normSq_normalize (p : Quat) (h : p.normSq ≠ 0) : (normalize p).normSq = 1 := by
  have hs : Real.sqrt p.normSq * Real.sqrt p.normSq = p.normSq :=
    Real.mul_self_sqrt (normSq_nonneg p)
  have hs' : Real.sqrt p.normSq ≠ 0 := by
    intro h0
    apply h
    rw [← hs, h0, mul_zero]
  have : (normalize p).normSq =
      (p.w * p.w + p.x * p.x + p.y * p.y + p.z * p.z) /
        (Real.sqrt p.normSq * Real.sqrt p.normSq) := by
    simp only [normalize, normSq]
    field_simp
  rw [this, hs]
  exact div_self h

theorem normSq_fromVectors (u v : Vec3) : (fromVectors u v).normSq = 1 := by
  unfold fromVectors
  by_cases h : (fromVectorsRaw u v).normSq = 0
  · simp [h, normSq_one]
  · simp only [h, if_false]
    exact normSq_normalize _ h

theorem conj_mul_self (p : Quat) (h : p.normSq = 1) : p.conj.mul p = Quat.one := by
  simp only [normSq] at h
  ext <;> simp only [conj, mul, one]
  · linear_combination h
  · ring
  · ring
  · ring

theorem conj_normalize (p : Quat) : (normalize p).conj = normalize p.conj := by
  have h : (Quat.mk p.w (-p.x) (-p.y) (-p.z)).normSq = p.normSq := by
    simp only [normSq]; ring
  simp only [normalize, conj, h, neg_div]

/-- Swapping the two vectors conjugates the raw shortest-arc quaternion. -/
theorem fromVectorsRaw_swap (u v : Vec3) :
    fromVectorsRaw v u = (fromVectorsRaw u v).conj := by
  have hdot : Vec3.dot v u = Vec3.dot u v := by
    simp only [Vec3.dot]; ring
  have hcross : Vec3.dot (Vec3.cross v u) (Vec3.cross v u) =
      Vec3.dot (Vec3.cross u v) (Vec3.cross u v) := by
    simp only [Vec3.dot, Vec3.cross]; ring
  ext
  · simp only [fromVectorsRaw, conj, hdot, hcross]
  · simp only [fromVectorsRaw, conj, Vec3.cross]; ring
  · simp only [fromVectorsRaw, conj, Vec3.cross]; ring
  · simp only [fromVectorsRaw, conj, Vec3.cross]; ring

theorem fromVectors_swap (u v : Vec3) :
    fromVectors v u = (fromVectors u v).conj := by
  unfold fromVectors
  rw [fromVectorsRaw_swap, normSq_conj]
  by_cases h : (fromVectorsRaw u v).normSq = 0
  · simp [h, one, conj]
  · simp only [h, if_false]
    exact (conj_normalize _).symm

/-- The product of the return-trip and outgoing shortest-arc quaternions is
the identity. -/
theorem fromVectors_swap_mul (u v : Vec3) :
    (fromVectors v u).mul (fromVectors u v) = Quat.one := by
  rw [fromVectors_swap]
  exact conj_mul_self _ (normSq_fromVectors u v)

theorem normSq_fromEuler (pitch yaw roll : ℝ) : (fromEuler pitch yaw roll).normSq = 1 := by
  unfold fromEuler
  rw [normSq_mul, normSq_mul]
  simp only [normSq]
  have e1 : Real.cos (pitch / 2) * Real.cos (pitch / 2) +
      Real.sin (pitch / 2) * Real.sin (pitch / 2) + 0 * 0 + 0 * 0 = 1 := by
    linear_combination Real.sin_sq_add_cos_sq (pitch / 2)
  have e2 : Real.cos (yaw / 2) * Real.cos (yaw / 2) + 0 * 0 +
      Real.sin (yaw / 2) * Real.sin (yaw / 2) + 0 * 0 = 1 := by
    linear_combination Real.sin_sq_add_cos_sq (yaw / 2)
  have e3 : Real.cos (roll / 2) * Real.cos (roll / 2) + 0 * 0 + 0 * 0 +
      Real.sin (roll / 2) * Real.sin (roll / 2) = 1 := by
    linear_combination Real.sin_sq_add_cos_sq (roll / 2)
  rw [e1, e2, e3]
  norm_num

end Quat

/-! `updateTrackball` geometry (`src/trackball.js` lines 171-191): the axis
`k = [deltaY/minDim, deltaX/minDim, 0]`, its norm, `theta = norm*pi/2`, and
the incremental rotation `dq = (cos theta, k * sin(theta)/norm)`. -/

/-- The norm of the axis `k` computed in `updateTrackball`:
`sqrt(k[0]*k[0] + k[1]*k[1] + k[2]*k[2])` with
`k = [deltaY/minDim, deltaX/minDim, 0]`. -/
def tbNorm (deltaX deltaY minDim : ℝ) : ℝ :=
  Real.sqrt (deltaY / minDim * (deltaY / minDim) + deltaX / minDim * (deltaX / minDim) + 0 * 0)

/-- `theta = norm * Math.PI / 2` in `updateTrackball`. -/
def tbTheta (deltaX deltaY minDim : ℝ) : ℝ := tbNorm deltaX deltaY minDim * Real.pi / 2

/-- The incremental rotation `dq` built in `updateTrackball`:
`new Quaternion(cosTheta, k[0]*s, k[1]*s, k[2]*s)` with
`s = sin(theta)/norm`. -/
def trackballDq (deltaX deltaY minDim : ℝ) : Quat :=
  ⟨Real.cos (tbTheta deltaX deltaY minDim),
   deltaY / minDim * (Real.sin (tbTheta deltaX deltaY minDim) / tbNorm deltaX deltaY minDim),
   deltaX / minDim * (Real.sin (tbTheta deltaX deltaY minDim) / tbNorm deltaX deltaY minDim),
   0 * (Real.sin (tbTheta deltaX deltaY minDim) / tbNorm deltaX deltaY minDim)⟩

theorem tbNorm_nonneg (deltaX deltaY minDim : ℝ) : 0 ≤ tbNorm deltaX deltaY minDim :=
  Real.sqrt_nonneg _

/-- When the axis norm vanishes, both axis components vanish. -/
theorem tbNorm_eq_zero (deltaX deltaY minDim : ℝ) (h : tbNorm deltaX deltaY minDim = 0) :
    deltaY / minDim = 0 ∧ deltaX / minDim = 0 := by
  have harg : deltaY / minDim * (deltaY / minDim) + deltaX / minDim * (deltaX / minDim) + 0 * 0 = 0 := by
    have hnn : 0 ≤ deltaY / minDim * (deltaY / minDim) + deltaX / minDim * (deltaX / minDim) + 0 * 0 := by
      nlinarith [mul_self_nonneg (deltaY / minDim), mul_self_nonneg (deltaX / minDim)]
    exact (Real.sqrt_eq_zero hnn).mp h
  constructor
  · have : deltaY / minDim * (deltaY / minDim) = 0 := by
      nlinarith [mul_self_nonneg (deltaY / minDim), mul_self_nonneg (deltaX / minDim)]
    exact mul_self_eq_zero.mp this
  · have : deltaX / minDim * (deltaX / minDim) = 0 := by
      nlinarith [mul_self_nonneg (deltaY / minDim), mul_self_nonneg (deltaX / minDim)]
    exact mul_self_eq_zero.mp this

/-- Squaring the axis norm recovers the sum of squared components. -/
theorem tbNorm_mul_self (deltaX deltaY minDim : ℝ) :
    tbNorm deltaX deltaY minDim * tbNorm deltaX deltaY minDim =
      deltaY / minDim * (deltaY / minDim) + deltaX / minDim * (deltaX / minDim) + 0 * 0 := by
  apply Real.mul_self_sqrt
  nlinarith [mul_self_nonneg (deltaY / minDim), mul_self_nonneg (deltaX / minDim)]

/-- The trackball increment is always a unit quaternion (over the reals; in
the degenerate `norm = 0` case the components are `cos 0 = 1` and `0`). -/
theorem normSq_trackballDq (deltaX deltaY minDim : ℝ) :
    (trackballDq deltaX deltaY minDim).normSq = 1 := by
  by_cases hn : tbNorm deltaX deltaY minDim = 0
  · obtain ⟨hY, hX⟩ := tbNorm_eq_zero deltaX deltaY minDim hn
    simp only [trackballDq, Quat.normSq, tbTheta, hn, hY, hX, zero_mul, mul_zero, add_zero,
      zero_div, zero_mul]
    rw [Real.cos_zero]
    norm_num
  · have hsq := tbNorm_mul_self deltaX deltaY minDim
    have hpyth := Real.sin_sq_add_cos_sq (tbTheta deltaX deltaY minDim)
    simp only [trackballDq, Quat.normSq]
    have expand : Real.cos (tbTheta deltaX deltaY minDim) * Real.cos (tbTheta deltaX deltaY minDim) +
        deltaY / minDim * (Real.sin (tbTheta deltaX deltaY minDim) / tbNorm deltaX deltaY minDim) *
          (deltaY / minDim * (Real.sin (tbTheta deltaX deltaY minDim) / tbNorm deltaX deltaY minDim)) +
        deltaX / minDim * (Real.sin (tbTheta deltaX deltaY minDim) / tbNorm deltaX deltaY minDim) *
          (deltaX / minDim * (Real.sin (tbTheta deltaX deltaY minDim) / tbNorm deltaX deltaY minDim)) +
        0 * (Real.sin (tbTheta deltaX deltaY minDim) / tbNorm deltaX deltaY minDim) *
          (0 * (Real.sin (tbTheta deltaX deltaY minDim) / tbNorm deltaX deltaY minDim)) =
        Real.cos (tbTheta deltaX deltaY minDim) * Real.cos (tbTheta deltaX deltaY minDim) +
          (deltaY / minDim * (deltaY / minDim) + deltaX / minDim * (deltaX / minDim) + 0 * 0) *
            (Real.sin (tbTheta deltaX deltaY minDim) * Real.sin (tbTheta deltaX deltaY minDim) /
              (tbNorm deltaX deltaY minDim * tbNorm deltaX deltaY minDim)) := by
      ring
    rw [expand, ← hsq]
    have hne : tbNorm deltaX deltaY minDim * tbNorm deltaX deltaY minDim ≠ 0 :=
      mul_ne_zero hn hn
    field_simp
    linear_combination hpyth

/-- Negating both deltas conjugates the trackball increment. -/
theorem trackballDq_neg (deltaX deltaY minDim : ℝ) :
    trackballDq (-deltaX) (-deltaY) minDim = (trackballDq deltaX deltaY minDim).conj := by
  have hnorm : tbNorm (-deltaX) (-deltaY) minDim = tbNorm deltaX deltaY minDim := by
    unfold tbNorm
    congr 1
    ring
  have htheta : tbTheta (-deltaX) (-deltaY) minDim = tbTheta deltaX deltaY minDim := by
    unfold tbTheta
    rw [hnorm]
  ext <;> simp only [trackballDq, Quat.conj, hnorm, htheta, neg_div] <;> ring

/-- Moving back by the opposite delta inverts the trackball increment. -/
theorem trackballDq_neg_mul (deltaX deltaY minDim : ℝ) :
    (trackballDq (-deltaX) (-deltaY) minDim).mul (trackballDq deltaX deltaY minDim) = Quat.one := by
  rw [trackballDq_neg]
  exact Quat.conj_mul_self _ (normSq_trackballDq deltaX deltaY minDim)

/-! The controller state (class `Trackball`, `src/trackball.js`). DOM wiring
(`initEventListeners`, `requestAnimationFrame` coalescing, `getBoundingClientRect`)
is out of scope per spec §1/§5; a move operation below models a `mousemove`
sample whose scheduled `update` has run. The `onDraw` callback is modelled as
a log of the quaternions it was invoked with. -/

/-- A captured bounding rectangle (`getBoundingClientRect`), with the DOMRect
accessors `left/right/top/bottom` derived from `x/y/width/height`. -/
structure Box where
  x : ℝ
  y : ℝ
  width : ℝ
  height : ℝ

def Box.left (b : Box) : ℝ := b.x

def Box.right (b : Box) : ℝ := b.x + b.width

def Box.top (b : Box) : ℝ := b.y

def Box.bottom (b : Box) : ℝ := b.y + b.height

/-- The `#drag` session object. `startVector` is `Option` because `#project`
returns `undefined` for methods outside the two ball-projection families. -/
structure DragSession where
  startVector : Option Vec3
  startPosition : ℝ × ℝ
  box : Box

/-- The retained configuration `#opts`. `rotationMethod` is `Option` because
the constructor destructures it with no default, so it may be `undefined`.
The `scene` element and the raw `onDraw` closure are DOM collaborators and
are not part of the core state. -/
structure Opts where
  rotationMethod : Option String
  clampElevation : Bool
  border : ℝ
  ballsize : ℝ

/-- The private fields of class `Trackball`. `draws` logs each `#draw()`
invocation (most recent first) with the quaternion passed to `onDraw`.
JS leaves `#azimuth`/`#elevation` undefined until first use; they are
modelled as the reals they hold once written, starting at 0. -/
structure Trackball where
  q0 : Quat
  q : Quat
  azimuth : ℝ
  elevation : ℝ
  azimuth_start : ℝ
  elevation_start : ℝ
  drag : Option DragSession
  opts : Opts
  draws : List Quat

/-- `#draw()`: invokes `onDraw` with the current `#q`. -/
def draw (s : Trackball) : Trackball := { s with draws := s.q :: s.draws }

/-- The constructor: records options, initializes `#q0 = #q = q`, applies the
`rounded_arcball` border override, and draws. -/
def mkTrackball (o : Opts) (q : Quat) : Trackball :=
  let o' := if o.rotationMethod = some "rounded_arcball" then { o with border := 0.5 } else o
  draw { q0 := q, q := q, azimuth := 0, elevation := 0, azimuth_start := 0,
         elevation_start := 0, drag := none, opts := o', draws := [] }

/-- `rotate(quaternion)`: outside a drag, `#q = #q0 = #q0.mul(quaternion)`
and draw; during a drag, nothing happens. -/
def rotate (p : Quat) (s : Trackball) : Trackball :=
  match s.drag with
  | none => draw { s with q := s.q0.mul p, q0 := s.q0.mul p }
  | some _ => s

/-- `reset()`: destroys the drag, resets the orientation to the identity and
the azimuth/elevation state to 0, and draws. -/
def reset (s : Trackball) : Trackball :=
  draw { s with drag := none, q := ⟨1, 0, 0, 0⟩, q0 := ⟨1, 0, 0, 0⟩,
                azimuth := 0, azimuth_start := 0, elevation := 0, elevation_start := 0 }

/-- `#project(x, y, box)`: normalization of the pointer coordinates (part of
`#project`, factored out for reuse in statements). -/
def normPx (o : Opts) (x : ℝ) (box : Box) : ℝ :=
  (2 * (x - box.x) - box.width - 1) / (max box.width box.height - 1) / o.ballsize

/-- The y-normalization in `#project` (flips to y-up). -/
def normPy (o : Opts) (y : ℝ) (box : Box) : ℝ :=
  -(2 * (y - box.y) - box.height - 1) / (max box.width box.height - 1) / o.ballsize

/-- `#project(x, y, box)`: maps a pointer position to a point on the ball or
its skirt. Returns `none` (JS `undefined`) for any method outside the
sphere/shoemake/rounded_arcball and bell families. -/
def project (o : Opts) (x y : ℝ) (box : Box) : Option Vec3 :=
  let ra := 1 + o.border
  let a := o.border * (1 + o.border / 2)
  let ri := 2 / (ra + 1 / ra)
  let px := normPx o x box
  let py := normPy o y box
  let dist2 := (px * px + py * py) * (ra * ra)
  let dist := Real.sqrt dist2
  if o.rotationMethod = some "sphere" ∨ o.rotationMethod = some "shoemake" ∨
      o.rotationMethod = some "rounded_arcball" then
    if dist < ri then some ⟨px, py, Real.sqrt (1 - dist2)⟩
    else if dist < ra then
      some ⟨px, py, a - Real.sqrt ((a + (ra - dist)) * (a - (ra - dist)))⟩
    else some ⟨px, py, 0⟩
  else if o.rotationMethod = some "bell" then
    if dist < 1 / Real.sqrt 2 then some ⟨px, py, Real.sqrt (1 - dist2)⟩
    else some ⟨px, py, 1 / (2 * dist)⟩
  else none

/-- `#handleMouseDown(event)`: captures the box, the start position, and the
projected start vector, then draws. -/
def handleMouseDown (cx cy : ℝ) (box : Box) (s : Trackball) : Trackball :=
  draw { s with drag := some ⟨project s.opts cx cy box, (cx, cy), box⟩ }

/-- `#updateAzEl(deltaX, deltaY)`: accumulates azimuth/elevation from the
drag-start snapshots and rebuilds `#q` from Euler angles. `#q0` is untouched. -/
def updateAzEl (deltaX deltaY : ℝ) (d : DragSession) (s : Trackball) : Trackball :=
  let scaleX := Real.pi / min d.box.width d.box.height
  let scaleY := scaleX
  let azimuth := s.azimuth_start + deltaX * scaleX
  let elevation :=
    if s.opts.clampElevation then
      max (-(Real.pi) / 2 + 0.01) (min (Real.pi / 2 - 0.01) (s.elevation_start + deltaY * scaleY))
    else s.elevation_start + deltaY * scaleY
  { s with azimuth := azimuth, elevation := elevation,
           q := Quat.fromEuler elevation azimuth 0 }

/-- `#updateTrackball(deltaX, deltaY, clientX, clientY)`: applies the
incremental rotation to `#q0`; for the method `trackball` (not
`trackball_no_precession`) it also commits `#q0 = #q` and resets the drag
anchor position to the current sample. -/
def updateTrackball (deltaX deltaY cx cy : ℝ) (d : DragSession) (s : Trackball) : Trackball :=
  let minDim := min d.box.height d.box.width
  let dq := trackballDq deltaX deltaY minDim
  let q := dq.mul s.q0
  if s.opts.rotationMethod = some "trackball" then
    { s with q := q, q0 := q, drag := some { d with startPosition := (cx, cy) } }
  else
    { s with q := q }

/-- `#updateSphericalMethods(clientX, clientY)`: builds `dq` from the start
and current projected vectors. The method `sphere` commits per sample
(`#q0 = #q`, start vector and position reset); `shoemake`, `rounded_arcball`
and `bell` apply `dq` twice against the fixed anchor. When either vector is
`undefined` (unknown method), JS would throw inside
`Quaternion.fromVectors`; this is modelled as leaving the state unchanged. -/
def updateSphericalMethods (cx cy : ℝ) (d : DragSession) (s : Trackball) : Trackball :=
  match d.startVector, project s.opts cx cy d.box with
  | some sv, some cv =>
    let dq := Quat.fromVectors sv cv
    if s.opts.rotationMethod = some "sphere" then
      { s with q := dq.mul s.q0, q0 := dq.mul s.q0,
               drag := some { d with startVector := some cv, startPosition := (cx, cy) } }
    else if s.opts.rotationMethod = some "shoemake" ∨
        s.opts.rotationMethod = some "rounded_arcball" ∨
        s.opts.rotationMethod = some "bell" then
      { s with q := dq.mul (dq.mul s.q0) }
    else s
  | _, _ => s

/-- `#updateRotation(clientX, clientY)`: computes the deltas from the drag
anchor, short-circuits when both are zero, and dispatches on the method
(any unrecognized or missing method falls into the spherical branch). -/
def updateRotation (cx cy : ℝ) (d : DragSession) (s : Trackball) : Trackball :=
  let deltaX := cx - d.startPosition.1
  let deltaY := cy - d.startPosition.2
  if deltaX = 0 ∧ deltaY = 0 then s
  else if s.opts.rotationMethod = some "azel" then updateAzEl deltaX deltaY d s
  else if s.opts.rotationMethod = some "trackball" ∨
      s.opts.rotationMethod = some "trackball_no_precession" then
    updateTrackball deltaX deltaY cx cy d s
  else updateSphericalMethods cx cy d s

/-- `#isInBounds(x, y, box)`. -/
def isInBounds (x y : ℝ) (b : Box) : Prop :=
  b.left ≤ x ∧ x ≤ b.right ∧ b.top ≤ y ∧ y ≤ b.bottom

instance (x y : ℝ) (b : Box) : Decidable (isInBounds x y b) := by
  unfold isInBounds
  infer_instance

/-- A pointer-move sample whose scheduled `#update` has run: if a drag is
active and the sample is inside the session's frozen box, the rotation is
updated and a draw happens; otherwise the sample is dropped. -/
def mouseMove (cx cy : ℝ) (s : Trackball) : Trackball :=
  match s.drag with
  | none => s
  | some d => if isInBounds cx cy d.box then draw (updateRotation cx cy d s) else s

/-- `#handleMouseUp()`: if a drag is active, destroys it, commits
`#q0 = #q`, snapshots azimuth/elevation, and draws. -/
def handleMouseUp (s : Trackball) : Trackball :=
  match s.drag with
  | none => s
  | some _ =>
    draw { s with drag := none, q0 := s.q,
                  azimuth_start := s.azimuth, elevation_start := s.elevation }

/-- The interaction alphabet: drag-start, drag-move, drag-end, programmatic
rotation, and reset. -/
inductive Op where
  | down (cx cy : ℝ) (box : Box)
  | move (cx cy : ℝ)
  | up
  | rot (p : Quat)
  | rst

/-- One interaction step. -/
def applyOp (s : Trackball) : Op → Trackball
  | .down cx cy box => handleMouseDown cx cy box s
  | .move cx cy => mouseMove cx cy s
  | .up => handleMouseUp s
  | .rot p => rotate p s
  | .rst => reset s

/-- A whole interaction sequence, applied left to right. -/
def applyOps (ops : List Op) (s : Trackball) : Trackball := ops.foldl applyOp s

/-- Side condition on an operation: programmatic rotations are by unit
quaternions (the API consumes rotation quaternions). -/
def OpUnit : Op → Prop
  | .rot p => p.normSq = 1
  | _ => True

/-! Preservation lemmas about the interaction steps. -/

theorem opts_draw (s : Trackball) : (draw s).opts = s.opts := rfl

theorem opts_updateRotation (cx cy : ℝ) (d : DragSession) (s : Trackball) :
    (updateRotation cx cy d s).opts = s.opts := by
  simp only [updateRotation, updateAzEl, updateTrackball, updateSphericalMethods]
  repeat' split
  all_goals rfl

theorem opts_applyOp (s : Trackball) (op : Op) : (applyOp s op).opts = s.opts := by
  cases op with
  | down cx cy box => rfl
  | move cx cy =>
    show (mouseMove cx cy s).opts = s.opts
    unfold mouseMove
    cases s.drag with
    | none => rfl
    | some d =>
      by_cases h : isInBounds cx cy d.box
      · simp only [h, if_true]
        rw [opts_draw, opts_updateRotation]
      · simp only [h, if_false]
  | up =>
    show (handleMouseUp s).opts = s.opts
    unfold handleMouseUp
    cases s.drag with
    | none => rfl
    | some d => rfl
  | rot p =>
    show (rotate p s).opts = s.opts
    unfold rotate
    cases s.drag with
    | none => rfl
    | some d => rfl
  | rst => rfl

theorem opts_applyOps (ops : List Op) (s : Trackball) : (applyOps ops s).opts = s.opts := by
  induction ops generalizing s with
  | nil => rfl
  | cons op rest ih =>
    show (applyOps rest (applyOp s op)).opts = s.opts
    rw [ih, opts_applyOp]

/-- A rotation update never destroys the drag session. -/
theorem drag_updateRotation_isSome (cx cy : ℝ) (d : DragSession) (s : Trackball)
    (h : s.drag = some d) : ∃ d', (updateRotation cx cy d s).drag = some d' := by
  simp only [updateRotation, updateAzEl, updateTrackball, updateSphericalMethods]
  repeat' split
  all_goals first
    | exact ⟨d, h⟩
    | exact ⟨_, rfl⟩

/-- C9: `reset()` always yields the identity orientation in both `#q` and
`#q0`, zeroes azimuth/elevation and their drag-start snapshots, destroys the
drag session, and invokes the draw callback with the identity — regardless of
the prior state. -/
theorem C9_reset_identity (s : Trackball) :
    (reset s).q = ⟨1, 0, 0, 0⟩ ∧ (reset s).q0 = ⟨1, 0, 0, 0⟩ ∧
    (reset s).azimuth = 0 ∧ (reset s).elevation = 0 ∧
    (reset s).azimuth_start = 0 ∧ (reset s).elevation_start = 0 ∧
    (reset s).drag = none ∧ (reset s).draws = ⟨1, 0, 0, 0⟩ :: s.draws :=
  ⟨rfl, rfl, rfl, rfl, rfl, rfl, rfl, rfl⟩

/-- C10: constructing with method `rounded_arcball` overrides the border to
exactly 0.5, once, at construction; any other method keeps the user-supplied
border; and no subsequent interaction sequence ever changes the stored
options (hence every later projection reads this same border). -/
theorem C10_rounded_arcball_border (o : Opts) (qinit : Quat) (ops : List Op) :
    (applyOps ops (mkTrackball o qinit)).opts =
      (if o.rotationMethod = some "rounded_arcball" then { o with border := 0.5 } else o) := by
  rw [opts_applyOps]
  rfl

/-! Invariants over interaction sequences. -/

/-- When no drag is active, the committed and current orientations agree. -/
def Synced (s : Trackball) : Prop := s.drag = none → s.q0 = s.q

theorem synced_applyOp (s : Trackball) (op : Op) (h : Synced s) : Synced (applyOp s op) := by
  cases op with
  | down cx cy box =>
    intro hd
    simp [applyOp, handleMouseDown, draw] at hd
  | move cx cy =>
    show Synced (mouseMove cx cy s)
    unfold mouseMove
    cases hdr : s.drag with
    | none => exact h
    | some d =>
      by_cases hb : isInBounds cx cy d.box
      · simp only [hb, if_true]
        intro hd
        obtain ⟨d', hd'⟩ := drag_updateRotation_isSome cx cy d s hdr
        rw [show (draw (updateRotation cx cy d s)).drag = (updateRotation cx cy d s).drag from rfl,
          hd'] at hd
        exact Option.noConfusion hd
      · simp only [hb, if_false]
        exact h
  | up =>
    show Synced (handleMouseUp s)
    unfold handleMouseUp
    cases hdr : s.drag with
    | none => exact h
    | some d => intro _; rfl
  | rot p =>
    show Synced (rotate p s)
    unfold rotate
    cases hdr : s.drag with
    | none => intro _; rfl
    | some d => exact h
  | rst => intro _; rfl

theorem synced_applyOps (ops : List Op) (s : Trackball) (h : Synced s) :
    Synced (applyOps ops s) := by
  induction ops generalizing s with
  | nil => exact h
  | cons op rest ih =>
    show Synced (applyOps rest (applyOp s op))
    exact ih _ (synced_applyOp s op h)

/-- C2: whenever no drag session is active after an arbitrary interaction
sequence from construction, the committed `#q0` and current `#q` are exactly
the same quaternion value. -/
theorem C2_idle_sync (o : Opts) (qinit : Quat) (ops : List Op)
    (h : (applyOps ops (mkTrackball o qinit)).drag = none) :
    (applyOps ops (mkTrackball o qinit)).q0 = (applyOps ops (mkTrackball o qinit)).q :=
  synced_applyOps ops (mkTrackball o qinit) (fun _ => rfl) h

/-- Sample configuration used by witnesses: method `trackball`, no clamping,
border 0, default ballsize. -/
def sampleOpts : Opts := ⟨some "trackball", false, 0, 0.75⟩

/-- The 400x400 box at the origin used in the spec's concrete scenarios. -/
def box400 : Box := ⟨0, 0, 400, 400⟩

theorem C2_idle_sync_witness :
    (applyOps [Op.rot Quat.one] (mkTrackball sampleOpts Quat.one)).q0 =
      (applyOps [Op.rot Quat.one] (mkTrackball sampleOpts Quat.one)).q :=
  C2_idle_sync sampleOpts Quat.one [Op.rot Quat.one] rfl

/-- Both orientations are unit quaternions. -/
def UnitNorm (s : Trackball) : Prop := s.q.normSq = 1 ∧ s.q0.normSq = 1

theorem unitNorm_updateRotation (cx cy : ℝ) (d : DragSession) (s : Trackball)
    (h : UnitNorm s) : UnitNorm (updateRotation cx cy d s) := by
  obtain ⟨hq, hq0⟩ := h
  simp only [UnitNorm, updateRotation, updateAzEl, updateTrackball, updateSphericalMethods]
  repeat' split
  all_goals refine ⟨?_, ?_⟩
  all_goals first
    | exact hq
    | exact hq0
    | simp only [Quat.normSq_mul, Quat.normSq_fromVectors, normSq_trackballDq,
        Quat.normSq_fromEuler, hq0, one_mul, mul_one]

theorem unitNorm_applyOp (s : Trackball) (op : Op) (hu : OpUnit op) (h : UnitNorm s) :
    UnitNorm (applyOp s op) := by
  obtain ⟨hq, hq0⟩ := h
  cases op with
  | down cx cy box => exact ⟨hq, hq0⟩
  | move cx cy =>
    show UnitNorm (mouseMove cx cy s)
    unfold mouseMove
    cases hdr : s.drag with
    | none => exact ⟨hq, hq0⟩
    | some d =>
      by_cases hb : isInBounds cx cy d.box
      · simp only [hb, if_true]
        exact unitNorm_updateRotation cx cy d s ⟨hq, hq0⟩
      · simp only [hb, if_false]
        exact ⟨hq, hq0⟩
  | up =>
    show UnitNorm (handleMouseUp s)
    unfold handleMouseUp
    cases hdr : s.drag with
    | none => exact ⟨hq, hq0⟩
    | some d => exact ⟨hq, hq⟩
  | rot p =>
    show UnitNorm (rotate p s)
    unfold rotate
    cases hdr : s.drag with
    | none =>
      have hp : p.normSq = 1 := hu
      constructor <;> simp only [draw, Quat.normSq_mul, hq0, hp, one_mul, mul_one]
    | some d => exact ⟨hq, hq0⟩
  | rst =>
    constructor <;> (show Quat.normSq ⟨1, 0, 0, 0⟩ = 1; norm_num [Quat.normSq])

theorem unitNorm_applyOps (ops : List Op) (s : Trackball)
    (hops : ∀ op ∈ ops, OpUnit op) (h : UnitNorm s) : UnitNorm (applyOps ops s) := by
  induction ops generalizing s with
  | nil => exact h
  | cons op rest ih =>
    show UnitNorm (applyOps rest (applyOp s op))
    exact ih _ (fun o ho => hops o (List.mem_cons_of_mem _ ho))
      (unitNorm_applyOp s op (hops op (List.mem_cons_self _ _)) h)

/-- C1: starting from a unit initial orientation, for every rotation method
and every interaction sequence (drag-start, drag-move, drag-end, rotation by
a unit quaternion, reset), the current orientation `#q` stays an exact unit
quaternion: the trackball `dq`, the sphere-family `fromVectors` result and
the azel `fromEuler` result are unit, and multiplication preserves the norm. -/
theorem C1_unit_quaternion (o : Opts) (qinit : Quat) (ops : List Op)
    (hinit : qinit.normSq = 1) (hops : ∀ op ∈ ops, OpUnit op) :
    (applyOps ops (mkTrackball o qinit)).q.normSq = 1 :=
  (unitNorm_applyOps ops (mkTrackball o qinit) hops ⟨hinit, hinit⟩).1

theorem C1_unit_quaternion_witness :
    (applyOps [Op.down 200 200 box400, Op.move 220 200, Op.up]
      (mkTrackball sampleOpts Quat.one)).q.normSq = 1 :=
  C1_unit_quaternion sampleOpts Quat.one [Op.down 200 200 box400, Op.move 220 200, Op.up]
    (by norm_num [Quat.one, Quat.normSq])
    (by intro op hop; fin_cases hop <;> trivial)

/-- C6: `rotate(q)` while idle right-multiplies the committed orientation,
mirrors it into the current orientation, and invokes the draw callback with
it; `rotate(q)` while a drag is active changes nothing at all (orientation,
drag session, azimuth/elevation state, and draw log are untouched). -/
theorem C6_rotate (s : Trackball) (p : Quat) :
    (s.drag = none →
      (rotate p s).q0 = s.q0.mul p ∧ (rotate p s).q = s.q0.mul p ∧
      (rotate p s).draws = s.q0.mul p :: s.draws) ∧
    (s.drag ≠ none → rotate p s = s) := by
  constructor
  · intro hd
    simp only [rotate, hd]
    exact ⟨rfl, rfl, rfl⟩
  · intro hd
    cases hdr : s.drag with
    | none => exact absurd hdr hd
    | some d => simp only [rotate, hdr]

theorem C6_rotate_witness :
    ((rotate Quat.one (mkTrackball sampleOpts Quat.one)).q0 =
        (mkTrackball sampleOpts Quat.one).q0.mul Quat.one ∧
      (rotate Quat.one (mkTrackball sampleOpts Quat.one)).q =
        (mkTrackball sampleOpts Quat.one).q0.mul Quat.one ∧
      (rotate Quat.one (mkTrackball sampleOpts Quat.one)).draws =
        (mkTrackball sampleOpts Quat.one).q0.mul Quat.one ::
          (mkTrackball sampleOpts Quat.one).draws) ∧
    rotate Quat.one (handleMouseDown 200 200 box400 (mkTrackball sampleOpts Quat.one)) =
      handleMouseDown 200 200 box400 (mkTrackball sampleOpts Quat.one) :=
  ⟨(C6_rotate (mkTrackball sampleOpts Quat.one) Quat.one).1 rfl,
   (C6_rotate (handleMouseDown 200 200 box400 (mkTrackball sampleOpts Quat.one)) Quat.one).2
     (by simp [handleMouseDown, draw])⟩

/-- The stored method string survives construction unchanged. -/
theorem rotationMethod_mkTrackball (o : Opts) (q : Quat) :
    (mkTrackball o q).opts.rotationMethod = o.rotationMethod := by
  simp only [mkTrackball, draw]
  split <;> rfl

/-- C8: no reachable degenerate-geometry input reaches a vanishing divisor:
(i) the trackball axis norm is strictly positive whenever some delta is
nonzero (and the box has positive size), (ii) the bell far-branch divisor
`2*dist` is positive whenever that branch is taken (`dist >= 1/sqrt 2`), and
(iii) a zero-delta sample short-circuits `updateRotation` to no rotation
before any method dispatch. -/
theorem C8_no_nan_guards :
    (∀ deltaX deltaY minDim : ℝ, 0 < minDim → ¬(deltaX = 0 ∧ deltaY = 0) →
      0 < tbNorm deltaX deltaY minDim) ∧
    (∀ dist : ℝ, ¬(dist < 1 / Real.sqrt 2) → 0 < 2 * dist) ∧
    (∀ (cx cy : ℝ) (d : DragSession) (s : Trackball),
      cx - d.startPosition.1 = 0 → cy - d.startPosition.2 = 0 →
      updateRotation cx cy d s = s) := by
  refine ⟨?_, ?_, ?_⟩
  · intro deltaX deltaY minDim hm hd
    unfold tbNorm
    apply Real.sqrt_pos.mpr
    rcases not_and_or.mp hd with hx | hy
    · have hb : deltaX / minDim ≠ 0 := div_ne_zero hx (ne_of_gt hm)
      nlinarith [mul_self_nonneg (deltaY / minDim), mul_self_pos.mpr hb]
    · have ha : deltaY / minDim ≠ 0 := div_ne_zero hy (ne_of_gt hm)
      nlinarith [mul_self_nonneg (deltaX / minDim), mul_self_pos.mpr ha]
  · intro dist hdist
    have h0 : (0 : ℝ) < Real.sqrt 2 := Real.sqrt_pos.mpr (by norm_num)
    have h1 : (0 : ℝ) < 1 / Real.sqrt 2 := by positivity
    have h2 : 1 / Real.sqrt 2 ≤ dist := not_lt.mp hdist
    linarith
  · intro cx cy d s h1 h2
    simp only [updateRotation]
    rw [if_pos ⟨h1, h2⟩]

theorem C8_no_nan_guards_witness :
    0 < tbNorm 20 0 400 ∧ 0 < 2 * (1 : ℝ) ∧
    updateRotation 200 200 ⟨none, (200, 200), box400⟩ (mkTrackball sampleOpts Quat.one) =
      mkTrackball sampleOpts Quat.one := by
  refine ⟨C8_no_nan_guards.1 20 0 400 (by norm_num) (by norm_num), ?_, ?_⟩
  · have h0 : (0 : ℝ) < Real.sqrt 2 := Real.sqrt_pos.mpr (by norm_num)
    have h2 : (1 : ℝ) ≤ Real.sqrt 2 := by
      nlinarith [Real.sq_sqrt (show (0:ℝ) ≤ 2 by norm_num)]
    exact C8_no_nan_guards.2.1 1 (not_lt.mpr ((div_le_one h0).mpr h2))
  · exact C8_no_nan_guards.2.2 200 200 ⟨none, (200, 200), box400⟩
      (mkTrackball sampleOpts Quat.one) (by norm_num) (by norm_num)

/-- C7: with method `trackball_no_precession`, a drag started at (200,200)
in a 400x400 box followed by moves to (220,200) and (240,200) computes both
samples' deltas against the original start position — 20 then 40, not 20 and
20 — applies each `dq` to the committed orientation from before the drag,
and never rewrites the stored start position. -/
theorem C7_no_precession_fixed_anchor (s : Trackball)
    (hm : s.opts.rotationMethod = some "trackball_no_precession") :
    (mouseMove 220 200 (handleMouseDown 200 200 box400 s)).q =
      (trackballDq 20 0 400).mul s.q0 ∧
    (mouseMove 240 200 (mouseMove 220 200 (handleMouseDown 200 200 box400 s))).q =
      (trackballDq 40 0 400).mul s.q0 ∧
    ∃ d, (mouseMove 240 200 (mouseMove 220 200 (handleMouseDown 200 200 box400 s))).drag
        = some d ∧ d.startPosition = (200, 200) := by
  have cIn1 : isInBounds 220 200 box400 = True := by
    simp only [isInBounds, box400, Box.left, Box.right, Box.top, Box.bottom, eq_iff_iff,
      iff_true]
    norm_num
  have cIn2 : isInBounds 240 200 box400 = True := by
    simp only [isInBounds, box400, Box.left, Box.right, Box.top, Box.bottom, eq_iff_iff,
      iff_true]
    norm_num
  have hmin : min box400.height box400.width = (400 : ℝ) := by
    simp [box400]
  have hstr1 : ("trackball_no_precession" = "azel") = False := by decide
  have hstr2 : ("trackball_no_precession" = "trackball") = False := by decide
  have hs1 : mouseMove 220 200 (handleMouseDown 200 200 box400 s) =
      { s with drag := some ⟨project s.opts 200 200 box400, (200, 200), box400⟩,
               q := (trackballDq 20 0 400).mul s.q0,
               draws := (trackballDq 20 0 400).mul s.q0 :: s.q :: s.draws } := by
    norm_num [mouseMove, handleMouseDown, draw, updateRotation, updateTrackball,
      hm, cIn1, hmin, hstr1, hstr2]
  have hs2 : mouseMove 240 200 (mouseMove 220 200 (handleMouseDown 200 200 box400 s)) =
      { s with drag := some ⟨project s.opts 200 200 box400, (200, 200), box400⟩,
               q := (trackballDq 40 0 400).mul s.q0,
               draws := (trackballDq 40 0 400).mul s.q0 ::
                 (trackballDq 20 0 400).mul s.q0 :: s.q :: s.draws } := by
    rw [hs1]
    norm_num [mouseMove, draw, updateRotation, updateTrackball, hm, cIn2, hmin,
      hstr1, hstr2]
  refine ⟨?_, ?_, ?_⟩
  · rw [hs1]
  · rw [hs2]
  · rw [hs2]
    exact ⟨_, rfl, rfl⟩

/-- Options for the `trackball_no_precession` witness. -/
def npOpts : Opts := ⟨some "trackball_no_precession", false, 0, 0.75⟩

theorem C7_no_precession_fixed_anchor_witness :
    (mouseMove 220 200 (handleMouseDown 200 200 box400 (mkTrackball npOpts Quat.one))).q =
      (trackballDq 20 0 400).mul (mkTrackball npOpts Quat.one).q0 ∧
    (mouseMove 240 200 (mouseMove 220 200
        (handleMouseDown 200 200 box400 (mkTrackball npOpts Quat.one)))).q =
      (trackballDq 40 0 400).mul (mkTrackball npOpts Quat.one).q0 ∧
    ∃ d, (mouseMove 240 200 (mouseMove 220 200
        (handleMouseDown 200 200 box400 (mkTrackball npOpts Quat.one)))).drag
        = some d ∧ d.startPosition = (200, 200) :=
  C7_no_precession_fixed_anchor (mkTrackball npOpts Quat.one)
    ((rotationMethod_mkTrackball npOpts Quat.one).trans rfl)

/-- The options an unvalidated construction stores for an unknown method. -/
def bogusOpts : Opts := ⟨some "bogus", false, 0, 0.75⟩

/-- C4, code evaluated at the failing input: construction silently accepts an
unrecognized `rotationMethod` (the stored options keep the string "bogus"
instead of rejecting or defaulting to `trackball`), and during interaction
`#project` produces `undefined` (`none`) for it, so a drag started under
this configuration records an undefined start vector — in JS the first
in-bounds move then feeds `undefined` into `Quaternion.fromVectors`. -/
theorem C4_unknown_method_accepted :
    (mkTrackball bogusOpts Quat.one).opts.rotationMethod = some "bogus" ∧
    project (mkTrackball bogusOpts Quat.one).opts 300 200 box400 = none ∧
    ∃ d, (handleMouseDown 200 200 box400 (mkTrackball bogusOpts Quat.one)).drag = some d ∧
      d.startVector = none := by
  have hrm : (mkTrackball bogusOpts Quat.one).opts.rotationMethod = some "bogus" :=
    (rotationMethod_mkTrackball bogusOpts Quat.one).trans rfl
  have hp : ∀ x y : ℝ, project (mkTrackball bogusOpts Quat.one).opts x y box400 = none := by
    intro x y
    simp [project, hrm]
  exact ⟨hrm, hp 300 200, ⟨_, rfl, hp 200 200⟩⟩

/-- C5: with border 0, the sphere/shoemake/rounded_arcball projector maps a
point whose normalized coordinates lie strictly inside the unit disk to
`(px, py, z)` with `z > 0` and `px*px + py*py + z*z = 1`, and maps a point
strictly outside the disk to `z = 0`; the middle (skirt) branch is
unreachable because `ri = ra = 1`. -/
theorem C5_ball_projection (o : Opts) (x y : ℝ) (box : Box)
    (hm : o.rotationMethod = some "sphere" ∨ o.rotationMethod = some "shoemake" ∨
      o.rotationMethod = some "rounded_arcball")
    (hb : o.border = 0) :
    (normPx o x box * normPx o x box + normPy o y box * normPy o y box < 1 →
      ∃ z, project o x y box = some ⟨normPx o x box, normPy o y box, z⟩ ∧ 0 < z ∧
        normPx o x box * normPx o x box + normPy o y box * normPy o y box + z * z = 1) ∧
    (1 < normPx o x box * normPx o x box + normPy o y box * normPy o y box →
      project o x y box = some ⟨normPx o x box, normPy o y box, 0⟩) := by
  have hD0 : 0 ≤ normPx o x box * normPx o x box + normPy o y box * normPy o y box := by
    nlinarith [mul_self_nonneg (normPx o x box), mul_self_nonneg (normPy o y box)]
  constructor
  · intro hin
    have hlt : Real.sqrt (normPx o x box * normPx o x box + normPy o y box * normPy o y box)
        < 1 := by
      have h := Real.sqrt_lt_sqrt hD0 hin
      rwa [Real.sqrt_one] at h
    refine ⟨Real.sqrt (1 - (normPx o x box * normPx o x box + normPy o y box * normPy o y box)),
      ?_, ?_, ?_⟩
    · simp only [project, hb]
      norm_num [hm, hlt]
    · exact Real.sqrt_pos.mpr (by linarith)
    · rw [Real.mul_self_sqrt (by linarith)]
      ring
  · intro hout
    have hge : ¬ Real.sqrt (normPx o x box * normPx o x box + normPy o y box * normPy o y box)
        < 1 := by
      apply not_lt.mpr
      have h := Real.sqrt_le_sqrt (le_of_lt hout)
      rwa [Real.sqrt_one] at h
    simp only [project, hb]
    norm_num [hm, hge]

/-- Options for the ball-projection witness: method `sphere`, border 0,
ballsize 1. -/
def ballOpts : Opts := ⟨some "sphere", false, 0, 1⟩

/-- A 401x401 box at the origin, so that `maxDim = 400`. -/
def box401 : Box := ⟨0, 0, 401, 401⟩

theorem C5_ball_projection_witness :
    ∃ z, project ballOpts 300 201 box401 =
        some ⟨normPx ballOpts 300 box401, normPy ballOpts 201 box401, z⟩ ∧ 0 < z ∧
      normPx ballOpts 300 box401 * normPx ballOpts 300 box401 +
        normPy ballOpts 201 box401 * normPy ballOpts 201 box401 + z * z = 1 :=
  (C5_ball_projection ballOpts 300 201 box401 (Or.inl rfl) rfl).1
    (by norm_num [normPx, normPy, ballOpts, box401])

/-- For the ball-projection family the projector always yields a vector. -/
theorem project_sphere_isSome (o : Opts) (x y : ℝ) (box : Box)
    (hm : o.rotationMethod = some "sphere" ∨ o.rotationMethod = some "shoemake" ∨
      o.rotationMethod = some "rounded_arcball") :
    ∃ v, project o x y box = some v := by
  simp only [project]
  rw [if_pos hm]
  repeat' split
  all_goals exact ⟨_, rfl⟩

/-- C3: for methods `trackball` and `sphere`, within a single drag whose
samples stay in bounds, moving to P and then back to the drag-start position
restores the current orientation exactly (in real arithmetic): both methods
commit the anchor and reset the start data after every sample, so the second
increment is the inverse of the first. -/
theorem C3_round_trip (s : Trackball) (x0 y0 x1 y1 : ℝ) (box : Box)
    (hm : s.opts.rotationMethod = some "trackball" ∨ s.opts.rotationMethod = some "sphere")
    (hq : s.q0 = s.q)
    (hb0 : isInBounds x0 y0 box) (hb1 : isInBounds x1 y1 box) :
    (mouseMove x0 y0 (mouseMove x1 y1 (handleMouseDown x0 y0 box s))).q = s.q := by
  have cb0 : isInBounds x0 y0 box = True := eq_true hb0
  have cb1 : isInBounds x1 y1 box = True := eq_true hb1
  by_cases hz : (x1 - x0 = 0 ∧ y1 - y0 = 0)
  · -- a degenerate round trip: both samples short-circuit on zero deltas
    have czT : ((x1 - x0 = 0) ∧ (y1 - y0 = 0)) = True := eq_true hz
    have hs1 : mouseMove x1 y1 (handleMouseDown x0 y0 box s) =
        { s with drag := some ⟨project s.opts x0 y0 box, (x0, y0), box⟩,
                 draws := s.q :: s.q :: s.draws } := by
      simp only [mouseMove, handleMouseDown, draw, updateRotation, cb1, if_true, czT]
    rw [hs1]
    have czT2 : ((x0 - x0 = 0) ∧ (y0 - y0 = 0)) = True := by norm_num
    simp only [mouseMove, draw, updateRotation, cb0, if_true, czT2]
  · have czF : ((x1 - x0 = 0) ∧ (y1 - y0 = 0)) = False := eq_false hz
    have czF2 : ((x0 - x1 = 0) ∧ (y0 - y1 = 0)) = False := by
      apply eq_false
      intro hc
      exact hz ⟨by linarith [hc.1], by linarith [hc.2]⟩
    have ex : x0 - x1 = -(x1 - x0) := by ring
    have ey : y0 - y1 = -(y1 - y0) := by ring
    rcases hm with htb | hsp
    · -- method trackball: per-sample commit of anchor and start position
      have cmAz : (s.opts.rotationMethod = some "azel") = False := by simp [htb]
      have cmFam : (s.opts.rotationMethod = some "trackball" ∨
          s.opts.rotationMethod = some "trackball_no_precession") = True := by simp [htb]
      have cmT : (s.opts.rotationMethod = some "trackball") = True := by simp [htb]
      have hs1 : mouseMove x1 y1 (handleMouseDown x0 y0 box s) =
          { s with
            q := (trackballDq (x1 - x0) (y1 - y0) (min box.height box.width)).mul s.q0,
            q0 := (trackballDq (x1 - x0) (y1 - y0) (min box.height box.width)).mul s.q0,
            drag := some ⟨project s.opts x0 y0 box, (x1, y1), box⟩,
            draws := (trackballDq (x1 - x0) (y1 - y0) (min box.height box.width)).mul s.q0 ::
              s.q :: s.draws } := by
        simp only [mouseMove, handleMouseDown, draw, updateRotation, updateTrackball,
          cb1, if_true, czF, if_false, cmAz, cmFam, cmT, true_or, false_or, or_true, or_false]
      rw [hs1]
      simp only [mouseMove, draw, updateRotation, updateTrackball,
        cb0, if_true, czF2, if_false, cmAz, cmFam, cmT, true_or, false_or, or_true, or_false]
      rw [ex, ey, ← Quat.mul_assoc, trackballDq_neg_mul, Quat.one_mul, hq]
    · -- method sphere: per-sample commit of anchor, start vector and position
      have cmAz : (s.opts.rotationMethod = some "azel") = False := by simp [hsp]
      have cmFam : (s.opts.rotationMethod = some "trackball" ∨
          s.opts.rotationMethod = some "trackball_no_precession") = False := by simp [hsp]
      have cmS : (s.opts.rotationMethod = some "sphere") = True := by simp [hsp]
      obtain ⟨v0, hv0⟩ := project_sphere_isSome s.opts x0 y0 box (Or.inl hsp)
      obtain ⟨v1, hv1⟩ := project_sphere_isSome s.opts x1 y1 box (Or.inl hsp)
      have hs1 : mouseMove x1 y1 (handleMouseDown x0 y0 box s) =
          { s with
            q := (Quat.fromVectors v0 v1).mul s.q0,
            q0 := (Quat.fromVectors v0 v1).mul s.q0,
            drag := some ⟨some v1, (x1, y1), box⟩,
            draws := (Quat.fromVectors v0 v1).mul s.q0 :: s.q :: s.draws } := by
        simp only [mouseMove, handleMouseDown, draw, updateRotation,
          updateSphericalMethods, cb1, if_true, czF, if_false, cmAz, cmFam, cmS,
          hv0, hv1, true_or, false_or, or_true, or_false]
      rw [hs1]
      simp only [mouseMove, draw, updateRotation, updateSphericalMethods,
        cb0, if_true, czF2, if_false, cmAz, cmFam, cmS, hv0, true_or, false_or,
        or_true, or_false]
      rw [← Quat.mul_assoc, Quat.fromVectors_swap_mul, Quat.one_mul, hq]

theorem C3_round_trip_witness :
    (mouseMove 200 200 (mouseMove 220 200
        (handleMouseDown 200 200 box400 (mkTrackball sampleOpts Quat.one)))).q =
      (mkTrackball sampleOpts Quat.one).q :=
  C3_round_trip (mkTrackball sampleOpts Quat.one) 200 200 220 200 box400
    (Or.inl ((rotationMethod_mkTrackball sampleOpts Quat.one).trans rfl)) rfl
    (by constructor <;> norm_num [box400, Box.left, Box.right, Box.top, Box.bottom])
    (by constructor <;> norm_num [box400, Box.left, Box.right, Box.top, Box.bottom])
